import Mathlib

/-!
Top20 API (`main.go`): a shallow embedding and its verified properties.

The service keeps one table of submissions and answers three handlers.  The
embedding below follows `main.go` function by function:

* Go strings are byte sequences (`GoString`); `len` is `List.length`, indexing
  is `List.getD`, slicing `s[:i]` is `List.take i`.
* The `submissions` table is a list of rows in insertion order.
* Everything a handler reads from outside the request and the table (driver
  failures, the value handed out by the `SERIAL` column, the clock, the order
  in which `range` visits a Go map) is collected in `Env`.
* `strings.EqualFold` and `utf8.DecodeRuneInString` are transcribed from the Go
  standard library; the Unicode table behind `unicode.SimpleFold` is a
  parameter.
-/

namespace Top20

/-! ## Definitions -/

/-- A Go `string`: an immutable sequence of bytes, each byte held as a natural number. -/
abbrev GoString := List Nat

/-- A string literal of the source (all literals of `main.go` are ASCII). -/
def lit (s : String) : GoString := s.toList.map Char.toNat

/-- The byte `','`. -/
def comma : Nat := 44

/-- The byte `':'`. -/
def colon : Nat := 58

/-! ### Data model (`Player`, `PositionCount`, `PlayerStats`, `ErrorResponse`, `SubmissionRequest`) -/

/-- Go `type Player struct`. -/
structure Player where
  Position : Int
  Name : GoString
deriving DecidableEq, Repr

/-- Go `type PositionCount struct`. -/
structure PositionCount where
  Position : Int
  Count : Int
deriving DecidableEq, Repr

/-- Go `type PlayerStats struct`. -/
structure PlayerStats where
  PlayerName : GoString
  TotalSubmissions : Int
  PositionBreakdown : List PositionCount
deriving DecidableEq, Repr

/-- Go `type ErrorResponse struct`. -/
structure ErrorResponse where
  Error : GoString
  Message : GoString
deriving DecidableEq, Repr

/-- Go `type SubmissionRequest struct`. -/
structure SubmissionRequest where
  Players : List Player
  SubmittedBy : GoString
deriving DecidableEq, Repr

/-- One row of the `submissions` table.  The `players` JSONB column is held as
what `json.Unmarshal(playersJSON, &players)` makes of it: `none` when the row
does not scan or decode (the handlers log and skip such a row). -/
structure Row where
  id : Int
  players : Option (List Player)
  submitted_by : GoString
  ip_address : GoString
  created_at : Int
deriving DecidableEq, Repr

/-- The `submissions` table, oldest row first. -/
abbrev Store := List Row

/-- The parts of `*http.Request` the handlers read.  `Body` is the outcome of
`json.NewDecoder(r.Body).Decode(&submission)` (`none` when it returns an
error); a header field is what `r.Header.Get` returns (empty when absent);
`QueryName` is `r.URL.Query().Get("name")`. -/
structure Request where
  Method : GoString
  XForwardedFor : GoString
  XRealIP : GoString
  RemoteAddr : GoString
  Body : Option SubmissionRequest
  QueryName : GoString

/-- What a handler reads from outside the request and the table. -/
structure Env where
  /-- `db.QueryRow("SELECT id ...").Scan` fails with an error other than `sql.ErrNoRows`. -/
  selectErr : Bool
  /-- The `INSERT` is rejected for a reason other than the `UNIQUE` constraint. -/
  insertErr : Bool
  /-- `db.Query("SELECT id, players ...")` fails. -/
  queryErr : Bool
  /-- The value the `SERIAL` column hands out. -/
  serial : Int
  /-- `CURRENT_TIMESTAMP`. -/
  now : Int
  /-- The order in which `for position, count := range positionCounts` visits the map. -/
  rangeOrder : List (Int × Int) → List (Int × Int)

/-- What a handler writes to the `http.ResponseWriter`. -/
inductive Body where
  /-- Nothing written. -/
  | empty
  /-- Plain text written by `http.Error` (the message and a newline). -/
  | text (msg : GoString)
  /-- `json.NewEncoder(w).Encode(ErrorResponse{...})`. -/
  | error (e : ErrorResponse)
  /-- `json.NewEncoder(w).Encode(stats)`. -/
  | stats (s : PlayerStats)
deriving DecidableEq, Repr

/-- Status code, the `Content-Type` the handler sets (if any) and the body. -/
structure Response where
  status : Nat
  contentType : Option GoString
  body : Body
deriving DecidableEq, Repr

/-- Go `http.Error(w, msg, code)`. -/
def httpError (msg : GoString) (code : Nat) : Response :=
  { status := code, contentType := some (lit "text/plain; charset=utf-8"),
    body := Body.text (msg ++ lit "\n") }

/-- The pattern `w.Header().Set("Content-Type", "application/json");
w.WriteHeader(code); json.NewEncoder(w).Encode(ErrorResponse{...})`. -/
def jsonError (code : Nat) (err msg : GoString) : Response :=
  { status := code, contentType := some (lit "application/json"),
    body := Body.error { Error := err, Message := msg } }

/-! ### `getIPAddress` -/

/-- The loop `for idx := 0; idx < len(forwarded); idx++` of `getIPAddress`:
`rest` is `forwarded[idx:]`. -/
def forwardedLoop (forwarded : GoString) : GoString → Nat → GoString
  | [], _ => forwarded
  | c :: rest, idx =>
    if c = comma then forwarded.take idx else forwardedLoop forwarded rest (idx + 1)

/-- The loop `for i := len(ip) - 1; i >= 0; i--` of `getIPAddress`: the
argument is `i + 1`. -/
def remoteAddrLoop (ip : GoString) : Nat → GoString
  | 0 => ip
  | i + 1 => if ip.getD i 0 = colon then ip.take i else remoteAddrLoop ip i

/-- Go `func getIPAddress(r *http.Request) string`. -/
def getIPAddress (r : Request) : GoString :=
  let forwarded := r.XForwardedFor
  if forwarded ≠ [] then
    forwardedLoop forwarded forwarded 0
  else
    let realIP := r.XRealIP
    if realIP ≠ [] then realIP
    else
      let ip := r.RemoteAddr
      remoteAddrLoop ip ip.length

/-- The text of `s` before its first comma (all of `s` when it has none). -/
def beforeFirstComma (s : GoString) : GoString := s.takeWhile (fun c => c ≠ comma)

/-- The string `s` with everything from its last colon onward removed (`s`
itself when it has no colon). -/
def withoutLastColonSuffix (s : GoString) : GoString :=
  if colon ∈ s then ((s.reverse.dropWhile (fun c => c ≠ colon)).drop 1).reverse else s

/-- The address resolver as the specification words it: forwarded header
first, then the real-address header, then the peer address without its port. -/
def getIPAddressSpec (r : Request) : GoString :=
  if r.XForwardedFor ≠ [] then beforeFirstComma r.XForwardedFor
  else if r.XRealIP ≠ [] then r.XRealIP
  else withoutLastColonSuffix r.RemoteAddr

/-! ### `equalsCaseInsensitive` and the library functions it calls -/

/-- Go `utf8.RuneError`. -/
def RuneError : Nat := 0xFFFD

/-- Go `utf8.RuneSelf`. -/
def RuneSelf : Nat := 0x80

/-- The table `first` of package `unicode/utf8`: information about the first
byte of an encoding (`0xF0` ASCII, `0xF1` invalid, otherwise the accept-range
index in the high nibble and the size in the low one). -/
def first (b : Nat) : Nat :=
  if b < 0x80 then 0xF0
  else if b < 0xC2 then 0xF1
  else if b < 0xE0 then 0x02
  else if b = 0xE0 then 0x13
  else if b < 0xED then 0x03
  else if b = 0xED then 0x23
  else if b < 0xF0 then 0x03
  else if b = 0xF0 then 0x34
  else if b < 0xF4 then 0x04
  else if b = 0xF4 then 0x44
  else 0xF1

/-- The table `acceptRanges` of package `unicode/utf8`: the bounds of the
second byte. -/
def acceptRanges (i : Nat) : Nat × Nat :=
  match i with
  | 0 => (0x80, 0xBF)
  | 1 => (0xA0, 0xBF)
  | 2 => (0x80, 0x9F)
  | 3 => (0x90, 0xBF)
  | 4 => (0x80, 0x8F)
  | _ => (0, 0)

/-- Go `utf8.DecodeRuneInString`: the first rune of `s` and its width in
bytes; `(RuneError, 1)` for an invalid encoding.  The `range` clause over a
string decodes the same way. -/
def DecodeRuneInString (s : GoString) : Nat × Nat :=
  let n := s.length
  if n < 1 then (RuneError, 0)
  else
    let s0 := s.getD 0 0
    let x := first s0
    if x ≥ 0xF0 then (if x % 2 = 1 then RuneError else s0, 1)
    else
      let sz := x &&& 7
      let accept := acceptRanges (x >>> 4)
      if n < sz then (RuneError, 1)
      else
        let s1 := s.getD 1 0
        if s1 < accept.1 ∨ accept.2 < s1 then (RuneError, 1)
        else if sz ≤ 2 then (((s0 &&& 0x1F) <<< 6) ||| (s1 &&& 0x3F), 2)
        else
          let s2 := s.getD 2 0
          if s2 < 0x80 ∨ 0xBF < s2 then (RuneError, 1)
          else if sz ≤ 3 then
            (((s0 &&& 0x0F) <<< 12) ||| ((s1 &&& 0x3F) <<< 6) ||| (s2 &&& 0x3F), 3)
          else
            let s3 := s.getD 3 0
            if s3 < 0x80 ∨ 0xBF < s3 then (RuneError, 1)
            else
              (((s0 &&& 0x07) <<< 18) ||| ((s1 &&& 0x3F) <<< 12) ||| ((s2 &&& 0x3F) <<< 6)
                ||| (s3 &&& 0x3F), 4)

/-- The test of `strings.EqualFold` on two different runes `sr < tr` below
`RuneSelf`: `'A' <= sr && sr <= 'Z' && tr == sr+'a'-'A'`. -/
def asciiFoldPair (sr tr : Nat) : Bool :=
  decide (65 ≤ sr) && decide (sr ≤ 90) && decide (tr = sr + 97 - 65)

/-- The loop `r := unicode.SimpleFold(sr); for r != sr && r < tr { r =
unicode.SimpleFold(r) }` of `strings.EqualFold`, started at `r`.  Every value
the loop visits is below `tr`, so a run that has not stopped after `tr + 1`
steps never stops; the first argument counts the steps left. -/
def foldOrbitLoop (SimpleFold : Nat → Nat) (sr tr : Nat) : Nat → Nat → Nat
  | 0, r => r
  | steps + 1, r =>
    if r ≠ sr ∧ r < tr then foldOrbitLoop SimpleFold sr tr steps (SimpleFold r) else r

/-- The part of `strings.EqualFold` after the label `hasUnicode`: the loop
`for _, sr := range s` against the rest `t` of the second string.  Every
iteration consumes at least one byte of `s`; the first argument bounds the
iterations and `EqualFold` passes `len(s)`. -/
def equalFoldUnicode (SimpleFold : Nat → Nat) : Nat → GoString → GoString → Bool
  | _, [], t => t.length == 0
  | 0, _ :: _, _ => false
  | n + 1, s0 :: s, t =>
    if t.length == 0 then false
    else
      let sr := (DecodeRuneInString (s0 :: s)).1
      let w := (DecodeRuneInString (s0 :: s)).2
      let t0 := t.getD 0 0
      let tr := if t0 < RuneSelf then t0 else (DecodeRuneInString t).1
      let t' := if t0 < RuneSelf then t.drop 1 else t.drop (DecodeRuneInString t).2
      if tr = sr then equalFoldUnicode SimpleFold n ((s0 :: s).drop w) t'
      else
        let lo := if tr < sr then tr else sr
        let hi := if tr < sr then sr else tr
        if hi < RuneSelf then
          if asciiFoldPair lo hi then equalFoldUnicode SimpleFold n ((s0 :: s).drop w) t'
          else false
        else
          let r := foldOrbitLoop SimpleFold lo hi (hi + 1) (SimpleFold lo)
          if r = hi then equalFoldUnicode SimpleFold n ((s0 :: s).drop w) t'
          else false

/-- Go `strings.EqualFold(s, t)`: equality of the two strings, read as UTF-8,
under simple Unicode case folding.  The first three cases are the ASCII fast
path (a loop over the byte index `i`, the arguments being `s[i:]` and
`t[i:]`). -/
def EqualFold (SimpleFold : Nat → Nat) : GoString → GoString → Bool
  | [], t => t.length == 0
  | s0 :: s, [] => (s0 :: s).length == 0
  | sr :: s, tr :: t =>
    if sr ||| tr ≥ RuneSelf then
      equalFoldUnicode SimpleFold (sr :: s).length (sr :: s) (tr :: t)
    else if tr = sr then EqualFold SimpleFold s t
    else
      let lo := if tr < sr then tr else sr
      let hi := if tr < sr then sr else tr
      if asciiFoldPair lo hi then EqualFold SimpleFold s t else false

/-- Go `func equalsCaseInsensitive(a, b string) bool`. -/
def equalsCaseInsensitive (SimpleFold : Nat → Nat) (a b : GoString) : Bool :=
  (a.length == b.length) && EqualFold SimpleFold a b

/-- The orbits of `unicode.SimpleFold` that meet the Basic Latin letters:
`A`..`Z` and `a`..`z` in pairs, except `K → k → U+212A (Kelvin sign) → K` and
`S → s → U+017F (long s) → S`.  Other runes are left alone here; the theorems
about the handlers hold for every folding function. -/
def SimpleFoldLatin (r : Nat) : Nat :=
  if r = 0x4B then 0x6B
  else if r = 0x6B then 0x212A
  else if r = 0x212A then 0x4B
  else if r = 0x53 then 0x73
  else if r = 0x73 then 0x17F
  else if r = 0x17F then 0x53
  else if 0x41 ≤ r ∧ r ≤ 0x5A then r + 0x20
  else if 0x61 ≤ r ∧ r ≤ 0x7A then r - 0x20
  else r

/-! ### Library operations on slices and maps -/

/-- Insertion of `x` into a slice ordered by `less`. -/
def insertSorted {α : Type} (less : α → α → Bool) (x : α) : List α → List α
  | [] => [x]
  | y :: ys => if less x y then x :: y :: ys else y :: insertSorted less x ys

/-- Go `sort.Slice(x, less)`, which orders the slice by `less` and promises no
stability; an insertion sort stands for it.  It also stands for `ORDER BY` of
the queries. -/
def sortSlice {α : Type} (less : α → α → Bool) : List α → List α
  | [] => []
  | x :: xs => insertSorted less x (sortSlice less xs)

/-- Go `positionCounts[k]++` on a `map[int]int`, held as an association list
with one entry per key. -/
def mapIncr : List (Int × Int) → Int → List (Int × Int)
  | [], k => [(k, 1)]
  | (k', c) :: m, k => if k' = k then (k', c + 1) :: m else (k', c) :: mapIncr m k

/-- Go `positionCounts[k]` (zero for an absent key). -/
def mapGet : List (Int × Int) → Int → Int
  | [], _ => 0
  | (k', c) :: m, k => if k' = k then c else mapGet m k

/-! ### `handlePlayerStats` -/

/-- The rows `SELECT id, players FROM submissions ORDER BY created_at DESC`
returns. -/
def selectAllNewestFirst (db : Store) : List Row :=
  sortSlice (fun a b => decide (a.created_at > b.created_at)) db

/-- The inner loop `for _, player := range players` of `handlePlayerStats`,
with its `break` at the first match, on the pair
`(positionCounts, totalSubmissions)`. -/
def scanPlayers (SimpleFold : Nat → Nat) (playerName : GoString) :
    List Player → List (Int × Int) × Int → List (Int × Int) × Int
  | [], st => st
  | player :: rest, st =>
    if equalsCaseInsensitive SimpleFold player.Name playerName then
      (mapIncr st.1 player.Position, st.2 + 1)
    else scanPlayers SimpleFold playerName rest st

/-- The loop `for rows.Next()` of `handlePlayerStats`; a row that does not scan
or decode is skipped (`continue`). -/
def scanRows (SimpleFold : Nat → Nat) (playerName : GoString) :
    List Row → List (Int × Int) × Int → List (Int × Int) × Int
  | [], st => st
  | row :: rows, st =>
    match row.players with
    | none => scanRows SimpleFold playerName rows st
    | some players =>
      scanRows SimpleFold playerName rows (scanPlayers SimpleFold playerName players st)

/-- Go `func handlePlayerStats(w http.ResponseWriter, r *http.Request)`. -/
def handlePlayerStats (SimpleFold : Nat → Nat) (env : Env) (db : Store) (r : Request) :
    Response :=
  if r.Method ≠ lit "GET" then httpError (lit "Method not allowed") 405
  else
    let playerName := r.QueryName
    if playerName = [] then
      jsonError 400 (lit "Missing required parameter") (lit "Player name is required")
    else if env.queryErr then httpError (lit "Error fetching submissions") 500
    else
      let st := scanRows SimpleFold playerName (selectAllNewestFirst db) ([], 0)
      let positionCounts := st.1
      let totalSubmissions := st.2
      if totalSubmissions = 0 then
        jsonError 404 (lit "Player not found")
          (lit "Player '" ++ playerName ++ lit "' was not found in any submission")
      else
        let positionBreakdown : List PositionCount :=
          (env.rangeOrder positionCounts).map
            (fun kv => { Position := kv.1, Count := kv.2 })
        let sorted :=
          sortSlice (fun a b => decide (a.Position < b.Position)) positionBreakdown
        { status := 200, contentType := some (lit "application/json"),
          body := Body.stats
            { PlayerName := playerName, TotalSubmissions := totalSubmissions,
              PositionBreakdown := sorted } }

/-- The first player of a stored submission, in stored order, whose name
matches the queried one. -/
def firstMatch (SimpleFold : Nat → Nat) (q : GoString) (row : Row) : Option Player :=
  match row.players with
  | none => none
  | some players => players.find? (fun p => equalsCaseInsensitive SimpleFold p.Name q)

/-- A stored submission contains at least one player whose name matches the
queried one. -/
def containsMatch (SimpleFold : Nat → Nat) (q : GoString) (row : Row) : Bool :=
  match row.players with
  | none => false
  | some players => players.any (fun p => equalsCaseInsensitive SimpleFold p.Name q)

/-- The first matching player of a stored submission has position `p`. -/
def firstMatchAt (SimpleFold : Nat → Nat) (q : GoString) (p : Int) (row : Row) : Bool :=
  match firstMatch SimpleFold q row with
  | none => false
  | some player => decide (player.Position = p)

/-- The positions at which the scanned rows award their one match: for each
row with a match, the position of its first matching player. -/
def firstMatchPositions (SimpleFold : Nat → Nat) (q : GoString) (rows : List Row) : List Int :=
  rows.filterMap (fun row => (firstMatch SimpleFold q row).map (fun p => p.Position))

/-! ### `handleSubmit` -/

/-- Outcome of `db.QueryRow(...).Scan(&existingID)`. -/
inductive QueryRowResult where
  /-- `err == nil`: a row was found. -/
  | found (id : Int)
  /-- `err == sql.ErrNoRows`. -/
  | noRows
  /-- Any other error. -/
  | failed
deriving DecidableEq, Repr

/-- The query `SELECT id FROM submissions WHERE ip_address = $1`. -/
def selectIDByIP (env : Env) (db : Store) (ipAddress : GoString) : QueryRowResult :=
  if env.selectErr then QueryRowResult.failed
  else
    match db.find? (fun row => decide (row.ip_address = ipAddress)) with
    | some row => QueryRowResult.found row.id
    | none => QueryRowResult.noRows

/-- The statement `INSERT INTO submissions (players, submitted_by, ip_address)
VALUES ($1, $2, $3) RETURNING id`: the new table, or `none` when the insert is
rejected (by the `UNIQUE` constraint on `ip_address` or for another reason). -/
def insertSubmission (env : Env) (db : Store) (players : List Player)
    (submittedBy ipAddress : GoString) : Option Store :=
  if env.insertErr then none
  else if db.any (fun row => decide (row.ip_address = ipAddress)) then none
  else
    some (db ++ [{ id := env.serial, players := some players, submitted_by := submittedBy,
                   ip_address := ipAddress, created_at := env.now }])

/-- Go `func handleSubmit(w http.ResponseWriter, r *http.Request)`: the
response and the table afterwards.  (`json.Marshal` of a `[]Player` does not
fail, so its error branch has no counterpart.) -/
def handleSubmit (env : Env) (db : Store) (r : Request) : Response × Store :=
  match r.Body with
  | none => (httpError (lit "Invalid JSON") 400, db)
  | some submission =>
    if submission.Players.length ≠ 20 then
      (jsonError 400 (lit "Invalid number of players")
        (lit "Exactly 20 players are required, got " ++
          lit (toString submission.Players.length)), db)
    else if submission.SubmittedBy = [] then
      (jsonError 400 (lit "Missing required field") (lit "submittedBy is required"), db)
    else
      let ipAddress := getIPAddress r
      match selectIDByIP env db ipAddress with
      | QueryRowResult.found _ =>
        (jsonError 409 (lit "IP address already submitted")
          (lit "Only one submission per IP address is allowed"), db)
      | QueryRowResult.failed => (httpError (lit "Error checking submission") 500, db)
      | QueryRowResult.noRows =>
        match insertSubmission env db submission.Players submission.SubmittedBy ipAddress with
        | none => (httpError (lit "Error saving submission") 500, db)
        | some db' => ({ status := 201, contentType := none, body := Body.empty }, db')

/-- Submit requests handled one after another, each in its own environment. -/
def handleSubmitAll : List (Env × Request) → Store → Store
  | [], db => db
  | (env, r) :: rest, db => handleSubmitAll rest (handleSubmit env db r).2

/-! ### `waitForDB` -/

/-- Go `time.Second`, in nanoseconds (`time.Duration` is an `int64`). -/
def Second : Int := 1000000000

/-- Arithmetic of `int64`: the value kept after an operation. -/
def wrapInt64 (x : Int) : Int := (x + 2 ^ 63) % 2 ^ 64 - 2 ^ 63

/-- What one turn of the loop of `waitForDB` meets: the probe succeeds; or it
fails and the timer `time.After(backoff)` fires; or it fails and `ctx.Done()`
fires. -/
inductive Probe where
  | up
  | downTimer
  | downDeadline
deriving DecidableEq, Repr

/-- How `waitForDB` ends: `nil`, the timeout error, or still looping when the
recorded turns are used up. -/
inductive WaitResult where
  | connected
  | timedOut
  | looping
deriving DecidableEq, Repr

/-- The loop `for { ... }` of `waitForDB` with the variable `backoff`; `waits`
collects the durations waited before each retry. -/
def waitLoop (maxBackoff : Int) : List Probe → Int → List Int → WaitResult × List Int
  | [], _, waits => (WaitResult.looping, waits)
  | Probe.up :: _, _, waits => (WaitResult.connected, waits)
  | Probe.downDeadline :: _, _, waits => (WaitResult.timedOut, waits)
  | Probe.downTimer :: rest, backoff, waits =>
    let doubled := wrapInt64 (backoff * 2)
    let next := if doubled > maxBackoff then maxBackoff else doubled
    waitLoop maxBackoff rest next (waits ++ [backoff])

/-- Go `func waitForDB(database *sql.DB, timeout time.Duration) error`, on the
turns the loop meets: its result and the waits before the retries. -/
def waitForDB (probes : List Probe) : WaitResult × List Int :=
  let backoff := Second
  let maxBackoff := wrapInt64 (10 * Second)
  waitLoop maxBackoff probes backoff []

/-- The wait before retry `k` as the specification words it: `min(2^k, 10)`
seconds. -/
def specWait (k : Nat) : Int := min (2 ^ k) 10 * Second

/-! ### Sample data -/

/-- Twenty players `p1` .. `p20` at positions 1 .. 20, the names at the listed
positions replaced. -/
def samplePlayers (named : List (Nat × GoString)) : List Player :=
  (List.range 20).map (fun (i : Nat) =>
    { Position := Int.ofNat (i + 1),
      Name := match List.lookup (i + 1) named with
        | some name => name
        | none => lit "p" ++ lit (toString (i + 1)) })

/-- An environment without failures in which `range` visits a map backwards. -/
def sampleEnv : Env :=
  { selectErr := false, insertErr := false, queryErr := false, serial := 5, now := 50,
    rangeOrder := List.reverse }

/-- A stored submission from `10.0.0.1` with `ALICE` third. -/
def annRow : Row :=
  { id := 1, players := some (samplePlayers [(3, lit "ALICE")]), submitted_by := lit "ann",
    ip_address := lit "10.0.0.1", created_at := 10 }

/-- A stored submission from `10.0.0.2` with `alice` seventh. -/
def bobRow : Row :=
  { id := 2, players := some (samplePlayers [(7, lit "alice")]), submitted_by := lit "bob",
    ip_address := lit "10.0.0.2", created_at := 20 }

/-- The table of the specification's example: `ALICE` third in one submission
and `alice` seventh in another. -/
def aliceStore : Store := [annRow, bobRow]

/-- A table with a submission naming `alice` twice (positions 2 and 5), one
naming her once (position 5), one without her and a row that does not decode. -/
def repeatStore : Store :=
  [ { id := 1, players := some (samplePlayers [(2, lit "alice"), (5, lit "ALICE")]),
      submitted_by := lit "ann", ip_address := lit "10.0.0.1", created_at := 10 },
    { id := 2, players := some (samplePlayers [(5, lit "Alice")]), submitted_by := lit "bob",
      ip_address := lit "10.0.0.2", created_at := 20 },
    { id := 3, players := some (samplePlayers []), submitted_by := lit "cy",
      ip_address := lit "10.0.0.3", created_at := 30 },
    { id := 4, players := none, submitted_by := lit "dee",
      ip_address := lit "10.0.0.4", created_at := 40 } ]

/-- The name `K`, the Kelvin sign `U+212A`, in UTF-8. -/
def kelvinName : GoString := [0xE2, 0x84, 0xAA]

/-- A table with one submission, whose first player is named with the Kelvin
sign. -/
def kelvinStore : Store :=
  [ { id := 1, players := some (samplePlayers [(1, kelvinName)]), submitted_by := lit "kay",
      ip_address := lit "10.0.0.1", created_at := 10 } ]

/-- The request `GET /api/players/stats?name=<name>`. -/
def statsRequest (name : GoString) : Request :=
  { Method := lit "GET", XForwardedFor := [], XRealIP := [], RemoteAddr := lit "10.0.0.9:4000",
    Body := none, QueryName := name }

/-- A `POST /api/submissions` request with the given headers, peer address and
decoded body. -/
def submitRequest (forwarded realIP remoteAddr : GoString)
    (body : Option SubmissionRequest) : Request :=
  { Method := lit "POST", XForwardedFor := forwarded, XRealIP := realIP,
    RemoteAddr := remoteAddr, Body := body, QueryName := [] }

/-! ## Theorems -/

/-! ### `sort.Slice` -/

theorem insertSorted_perm {α : Type} (less : α → α → Bool) (x : α) (l : List α) :
    (insertSorted less x l).Perm (x :: l) := by
  induction l with
  | nil => simp [insertSorted]
  | cons y ys ih =>
    unfold insertSorted
    split
    · exact List.Perm.refl _
    · exact (List.Perm.cons y ih).trans (List.Perm.swap x y ys)

theorem sortSlice_perm {α : Type} (less : α → α → Bool) (l : List α) :
    (sortSlice less l).Perm l := by
  induction l with
  | nil => simp [sortSlice]
  | cons x xs ih =>
    unfold sortSlice
    exact (insertSorted_perm less x _).trans (List.Perm.cons x ih)

theorem insertSorted_pairwise {α : Type} (key : α → Int) (x : α) (l : List α)
    (h : l.Pairwise (fun a b => key a ≤ key b)) :
    (insertSorted (fun a b => decide (key a < key b)) x l).Pairwise
      (fun a b => key a ≤ key b) := by
  induction l with
  | nil => simp [insertSorted]
  | cons y ys ih =>
    rw [List.pairwise_cons] at h
    unfold insertSorted
    by_cases hxy : key x < key y
    · simp only [hxy, decide_True, if_true]
      refine List.Pairwise.cons ?_ (List.Pairwise.cons h.1 h.2)
      intro z hz
      rcases List.mem_cons.1 hz with rfl | hz
      · exact le_of_lt hxy
      · exact le_trans (le_of_lt hxy) (h.1 z hz)
    · simp only [hxy, decide_False, Bool.false_eq_true, if_false]
      refine List.Pairwise.cons ?_ (ih h.2)
      intro z hz
      have hz2 : z ∈ x :: ys := (insertSorted_perm _ x ys).subset hz
      rcases List.mem_cons.1 hz2 with rfl | hz2
      · exact not_lt.1 hxy
      · exact h.1 z hz2

theorem sortSlice_pairwise {α : Type} (key : α → Int) (l : List α) :
    (sortSlice (fun a b => decide (key a < key b)) l).Pairwise
      (fun a b => key a ≤ key b) := by
  induction l with
  | nil => simp [sortSlice]
  | cons x xs ih =>
    unfold sortSlice
    exact insertSorted_pairwise key x _ ih

/-- Sorting a slice whose keys are pairwise different leaves it strictly ascending. -/
theorem sortSlice_strict {α : Type} (key : α → Int) (l : List α)
    (hnd : (l.map key).Nodup) :
    (sortSlice (fun a b => decide (key a < key b)) l).Pairwise
      (fun a b => key a < key b) := by
  have hp := sortSlice_perm (fun a b => decide (key a < key b)) l
  have hnd2 : ((sortSlice (fun a b => decide (key a < key b)) l).map key).Nodup :=
    (hp.map key).nodup_iff.2 hnd
  have hne : (sortSlice (fun a b => decide (key a < key b)) l).Pairwise
      (fun a b => key a ≠ key b) := by
    have := hnd2
    rw [List.Nodup, List.pairwise_map] at this
    exact this
  exact ((sortSlice_pairwise key l).and hne).imp (fun h => lt_of_le_of_ne h.1 h.2)

/-! ### The map `positionCounts` -/

theorem mapIncr_keys (m : List (Int × Int)) (k : Int) :
    (mapIncr m k).map Prod.fst =
      if k ∈ m.map Prod.fst then m.map Prod.fst else m.map Prod.fst ++ [k] := by
  induction m with
  | nil => simp [mapIncr]
  | cons kv m ih =>
    obtain ⟨k', c⟩ := kv
    unfold mapIncr
    by_cases h : k' = k
    · simp [h]
    · have h2 : ¬ k = k' := fun e => h e.symm
      simp only [h, if_false, List.map_cons, ih, List.mem_cons, h2, false_or]
      split <;> simp

theorem mapIncr_nodup (m : List (Int × Int)) (k : Int) (h : (m.map Prod.fst).Nodup) :
    ((mapIncr m k).map Prod.fst).Nodup := by
  rw [mapIncr_keys]
  split
  · exact h
  · rename_i hk
    exact List.Nodup.append h (List.nodup_singleton k) (by simpa using hk)

theorem mem_mapIncr_keys (m : List (Int × Int)) (k k' : Int) :
    k' ∈ (mapIncr m k).map Prod.fst ↔ k' = k ∨ k' ∈ m.map Prod.fst := by
  rw [mapIncr_keys]
  split
  · rename_i hk
    constructor
    · exact Or.inr
    · rintro (rfl | h)
      · exact hk
      · exact h
  · simp [or_comm]

theorem mapGet_mapIncr (m : List (Int × Int)) (k k' : Int) :
    mapGet (mapIncr m k) k' = mapGet m k' + if k = k' then 1 else 0 := by
  induction m with
  | nil => simp [mapIncr, mapGet]
  | cons kv m ih =>
    obtain ⟨k0, c⟩ := kv
    unfold mapIncr
    by_cases h : k0 = k
    · subst h
      by_cases h2 : k0 = k'
      · simp [mapGet, h2]
      · simp [mapGet, h2]
    · by_cases h2 : k0 = k'
      · subst h2
        have h3 : ¬ k = k0 := fun e => h e.symm
        simp [mapGet, h, h3]
      · simp [mapGet, h, h2, ih]

theorem mapIncr_sum (m : List (Int × Int)) (k : Int) :
    ((mapIncr m k).map Prod.snd).sum = (m.map Prod.snd).sum + 1 := by
  induction m with
  | nil => simp [mapIncr]
  | cons kv m ih =>
    obtain ⟨k0, c⟩ := kv
    unfold mapIncr
    by_cases h : k0 = k
    · simp [h]; ring
    · simp [h, ih]; ring

theorem mapGet_of_not_mem (m : List (Int × Int)) (k : Int) (h : k ∉ m.map Prod.fst) :
    mapGet m k = 0 := by
  induction m with
  | nil => rfl
  | cons kv m ih =>
    obtain ⟨k0, c⟩ := kv
    simp only [List.map_cons, List.mem_cons, not_or] at h
    have h1 : ¬ k0 = k := fun e => h.1 e.symm
    simp [mapGet, h1, ih h.2]

/-- In a map with one entry per key, the entries are the keys with their values. -/
theorem mem_map_iff_mapGet (m : List (Int × Int)) (h : (m.map Prod.fst).Nodup) (k c : Int) :
    (k, c) ∈ m ↔ k ∈ m.map Prod.fst ∧ mapGet m k = c := by
  induction m with
  | nil => simp
  | cons kv m ih =>
    obtain ⟨k0, c0⟩ := kv
    simp only [List.map_cons, List.nodup_cons] at h
    by_cases hk : k0 = k
    · subst hk
      have hno : ∀ c', (k0, c') ∉ m := fun c' hm => h.1 (List.mem_map.2 ⟨_, hm, rfl⟩)
      simp only [List.mem_cons, Prod.mk.injEq, true_and, List.map_cons, true_or, mapGet,
        if_true]
      constructor
      · rintro (e | hm)
        · exact e.symm
        · exact absurd hm (hno c)
      · intro e
        exact Or.inl e.symm
    · have hk2 : ¬ k = k0 := fun e => hk e.symm
      simp only [List.mem_cons, Prod.mk.injEq, hk2, false_and, false_or, List.map_cons, mapGet,
        hk, if_false]
      exact ih h.2

theorem foldl_mapIncr_nodup (ks : List Int) (m : List (Int × Int))
    (h : (m.map Prod.fst).Nodup) : ((ks.foldl mapIncr m).map Prod.fst).Nodup := by
  induction ks generalizing m with
  | nil => exact h
  | cons k ks ih => exact ih _ (mapIncr_nodup m k h)

theorem mem_foldl_mapIncr_keys (ks : List Int) (m : List (Int × Int)) (k : Int) :
    k ∈ (ks.foldl mapIncr m).map Prod.fst ↔ k ∈ ks ∨ k ∈ m.map Prod.fst := by
  induction ks generalizing m with
  | nil => simp
  | cons k0 ks ih =>
    rw [List.foldl_cons, ih, mem_mapIncr_keys, List.mem_cons]
    tauto

theorem mapGet_foldl_mapIncr (ks : List Int) (m : List (Int × Int)) (k : Int) :
    mapGet (ks.foldl mapIncr m) k = mapGet m k + (ks.count k : Int) := by
  induction ks generalizing m with
  | nil => simp
  | cons k0 ks ih =>
    rw [List.foldl_cons, ih, mapGet_mapIncr, List.count_cons]
    by_cases h : k0 = k
    · simp [h]; ring
    · simp [h]

theorem foldl_mapIncr_sum (ks : List Int) (m : List (Int × Int)) :
    (((ks.foldl mapIncr m)).map Prod.snd).sum = (m.map Prod.snd).sum + (ks.length : Int) := by
  induction ks generalizing m with
  | nil => simp
  | cons k0 ks ih =>
    rw [List.foldl_cons, ih, mapIncr_sum, List.length_cons]
    push_cast
    ring

/-- The entries of the histogram built from an empty map. -/
theorem mem_histogram (ks : List Int) (k c : Int) :
    (k, c) ∈ ks.foldl mapIncr [] ↔ k ∈ ks ∧ c = (ks.count k : Int) := by
  rw [mem_map_iff_mapGet _ (foldl_mapIncr_nodup ks [] List.nodup_nil),
    mem_foldl_mapIncr_keys, mapGet_foldl_mapIncr]
  simp [mapGet, eq_comm]

theorem forwardedLoop_eq (pre rest : GoString) :
    forwardedLoop (pre ++ rest) rest pre.length = pre ++ beforeFirstComma rest := by
  induction rest generalizing pre with
  | nil => simp [forwardedLoop, beforeFirstComma]
  | cons c rest ih =>
    by_cases hc : c = comma
    · simp [forwardedLoop, beforeFirstComma, hc]
    · have h := ih (pre ++ [c])
      simp only [List.append_assoc, List.singleton_append, List.length_append,
        List.length_singleton] at h
      simp [forwardedLoop, beforeFirstComma, hc, List.takeWhile_cons, h]

theorem remoteAddrLoop_eq (ip : GoString) (n : Nat) (hn : n ≤ ip.length) :
    remoteAddrLoop ip n =
      if colon ∈ ip.take n then withoutLastColonSuffix (ip.take n) else ip := by
  induction n with
  | zero => simp [remoteAddrLoop]
  | succ i ih =>
    have hi : i < ip.length := hn
    have htake : ip.take (i + 1) = ip.take i ++ [ip.getD i 0] := by
      rw [List.take_succ, List.getD_eq_getElem?_getD, List.getElem?_eq_getElem hi]
      simp
    rw [remoteAddrLoop, htake]
    generalize ip.getD i 0 = x
    by_cases hc : x = colon
    · simp [hc, withoutLastColonSuffix]
    · rw [if_neg hc, ih (Nat.le_of_lt hi)]
      have hc2 : ¬ colon = x := fun h => hc h.symm
      by_cases hm : colon ∈ ip.take i
      · simp [hm, withoutLastColonSuffix, hc, List.dropWhile_cons]
      · simp [hm, hc2]

/-- C5: `getIPAddress` equals the reference definition on every request: the
text of a non-empty `X-Forwarded-For` before its first comma, else a non-empty
`X-Real-IP` unchanged, else `RemoteAddr` cut at its last colon. -/
theorem getIPAddress_eq_spec (r : Request) : getIPAddress r = getIPAddressSpec r := by
  unfold getIPAddress getIPAddressSpec
  by_cases hf : r.XForwardedFor = []
  · by_cases hr : r.XRealIP = []
    · have h := remoteAddrLoop_eq r.RemoteAddr r.RemoteAddr.length (Nat.le_refl _)
      simp only [List.take_length] at h
      simp only [hf, hr, ne_eq, not_true_eq_false, if_false, h]
      by_cases hm : colon ∈ r.RemoteAddr
      · simp [hm]
      · simp [hm, withoutLastColonSuffix]
    · simp [hf, hr]
  · have h := forwardedLoop_eq [] r.XForwardedFor
    simp only [List.nil_append, List.length_nil] at h
    simp [hf, h]

/-! ### The scan of `handlePlayerStats` -/

theorem scanPlayers_eq (fold : Nat → Nat) (q : GoString) (ps : List Player)
    (st : List (Int × Int) × Int) :
    scanPlayers fold q ps st =
      match ps.find? (fun p => equalsCaseInsensitive fold p.Name q) with
      | some p => (mapIncr st.1 p.Position, st.2 + 1)
      | none => st := by
  induction ps with
  | nil => rfl
  | cons p ps ih =>
    unfold scanPlayers
    by_cases h : equalsCaseInsensitive fold p.Name q = true
    · simp [h, List.find?_cons]
    · simp [h, List.find?_cons, ih]

theorem scanRows_eq (fold : Nat → Nat) (q : GoString) (rows : List Row)
    (st : List (Int × Int) × Int) :
    scanRows fold q rows st =
      ((firstMatchPositions fold q rows).foldl mapIncr st.1,
        st.2 + ((firstMatchPositions fold q rows).length : Int)) := by
  induction rows generalizing st with
  | nil => simp [scanRows, firstMatchPositions]
  | cons row rows ih =>
    unfold scanRows
    cases hp : row.players with
    | none => simp [ih, firstMatchPositions, firstMatch, hp, List.filterMap_cons]
    | some ps =>
      simp only [ih, scanPlayers_eq]
      cases hf : ps.find? (fun p => equalsCaseInsensitive fold p.Name q) with
      | none => simp [firstMatchPositions, firstMatch, hp, hf, List.filterMap_cons]
      | some p =>
        simp [firstMatchPositions, firstMatch, hp, hf, List.filterMap_cons]
        ring

theorem count_firstMatchPositions (fold : Nat → Nat) (q : GoString) (rows : List Row) (p : Int) :
    (firstMatchPositions fold q rows).count p = rows.countP (firstMatchAt fold q p) := by
  induction rows with
  | nil => simp [firstMatchPositions]
  | cons row rows ih =>
    unfold firstMatchPositions at ih ⊢
    rw [List.filterMap_cons, List.countP_cons]
    cases hf : firstMatch fold q row with
    | none => simp [hf, firstMatchAt, ih]
    | some pl =>
      simp only [hf, Option.map_some', List.count_cons, ih, firstMatchAt]
      by_cases h : pl.Position = p <;> simp [h]

theorem containsMatch_eq_isSome (fold : Nat → Nat) (q : GoString) (row : Row) :
    containsMatch fold q row = (firstMatch fold q row).isSome := by
  unfold containsMatch firstMatch
  cases row.players with
  | none => rfl
  | some ps =>
    simp only
    rw [Bool.eq_iff_iff, List.any_eq_true, List.find?_isSome]

theorem length_firstMatchPositions (fold : Nat → Nat) (q : GoString) (rows : List Row) :
    (firstMatchPositions fold q rows).length = rows.countP (containsMatch fold q) := by
  induction rows with
  | nil => simp [firstMatchPositions]
  | cons row rows ih =>
    unfold firstMatchPositions at ih ⊢
    rw [List.filterMap_cons, List.countP_cons, containsMatch_eq_isSome]
    cases hf : firstMatch fold q row with
    | none => simp [hf, ih]
    | some pl => simp [hf, ih]

/-- The response of `handlePlayerStats` to a `GET` request with a name, when
the query succeeds. -/
theorem handlePlayerStats_scan (fold : Nat → Nat) (env : Env) (db : Store) (r : Request)
    (hm : r.Method = lit "GET") (hq : r.QueryName ≠ []) (he : env.queryErr = false) :
    handlePlayerStats fold env db r =
      if db.countP (containsMatch fold r.QueryName) = 0 then
        jsonError 404 (lit "Player not found")
          (lit "Player '" ++ r.QueryName ++ lit "' was not found in any submission")
      else
        { status := 200, contentType := some (lit "application/json"),
          body := Body.stats
            { PlayerName := r.QueryName,
              TotalSubmissions := (db.countP (containsMatch fold r.QueryName) : Int),
              PositionBreakdown :=
                sortSlice (fun a b => decide (a.Position < b.Position))
                  ((env.rangeOrder
                    ((firstMatchPositions fold r.QueryName (selectAllNewestFirst db)).foldl
                      mapIncr [])).map
                    (fun kv => { Position := kv.1, Count := kv.2 })) } } := by
  have hlen : (firstMatchPositions fold r.QueryName (selectAllNewestFirst db)).length =
      db.countP (containsMatch fold r.QueryName) := by
    rw [length_firstMatchPositions]
    exact (sortSlice_perm _ db).countP_eq _
  unfold handlePlayerStats
  simp only [hm, hq, he, ne_eq, not_true_eq_false, if_false, scanRows_eq, hlen, zero_add,
    Bool.false_eq_true, Nat.cast_eq_zero]

/-- What a `200` response of `handlePlayerStats` holds. -/
theorem handlePlayerStats_stats (fold : Nat → Nat) (env : Env) (db : Store) (r : Request)
    (stats : PlayerStats) (h : (handlePlayerStats fold env db r).body = Body.stats stats) :
    r.Method = lit "GET" ∧ r.QueryName ≠ [] ∧ env.queryErr = false ∧
      db.countP (containsMatch fold r.QueryName) ≠ 0 ∧
      handlePlayerStats fold env db r =
        { status := 200, contentType := some (lit "application/json"),
          body := Body.stats stats } ∧
      stats.PlayerName = r.QueryName ∧
      stats.TotalSubmissions = (db.countP (containsMatch fold r.QueryName) : Int) ∧
      stats.PositionBreakdown =
        sortSlice (fun a b => decide (a.Position < b.Position))
          ((env.rangeOrder
            ((firstMatchPositions fold r.QueryName (selectAllNewestFirst db)).foldl
              mapIncr [])).map
            (fun kv => { Position := kv.1, Count := kv.2 })) := by
  by_cases hm : r.Method = lit "GET"
  · by_cases hq : r.QueryName = []
    · simp [handlePlayerStats, hm, hq, jsonError] at h
    · cases he : env.queryErr with
      | true => simp [handlePlayerStats, hm, hq, he, httpError] at h
      | false =>
        have hs := handlePlayerStats_scan fold env db r hm hq he
        by_cases hz : db.countP (containsMatch fold r.QueryName) = 0
        · rw [hs, if_pos hz] at h
          simp [jsonError] at h
        · rw [hs, if_neg hz] at h ⊢
          simp only [Body.stats.injEq] at h
          subst h
          exact ⟨hm, hq, rfl, hz, rfl, rfl, rfl, rfl⟩
  · simp [handlePlayerStats, hm, httpError] at h

/-! ### The sorted breakdown -/

theorem mem_breakdown (order : List (Int × Int) → List (Int × Int)) (ks : List Int)
    (hperm : (order (ks.foldl mapIncr [])).Perm (ks.foldl mapIncr [])) (p c : Int) :
    ({ Position := p, Count := c } : PositionCount) ∈
        sortSlice (fun a b => decide (a.Position < b.Position))
          ((order (ks.foldl mapIncr [])).map (fun kv => { Position := kv.1, Count := kv.2 })) ↔
      p ∈ ks ∧ c = (ks.count p : Int) := by
  rw [(sortSlice_perm _ _).mem_iff, ← mem_histogram, ← hperm.mem_iff, List.mem_map]
  constructor
  · rintro ⟨⟨k, v⟩, hkv, e⟩
    simp only [PositionCount.mk.injEq] at e
    obtain ⟨rfl, rfl⟩ := e
    exact hkv
  · intro h
    exact ⟨(p, c), h, rfl⟩

theorem breakdown_strict (order : List (Int × Int) → List (Int × Int)) (ks : List Int)
    (hperm : (order (ks.foldl mapIncr [])).Perm (ks.foldl mapIncr [])) :
    (sortSlice (fun a b => decide (a.Position < b.Position))
      ((order (ks.foldl mapIncr [])).map
        (fun kv => ({ Position := kv.1, Count := kv.2 } : PositionCount)))).Pairwise
      (fun a b => a.Position < b.Position) := by
  apply sortSlice_strict (fun a : PositionCount => a.Position)
  rw [List.map_map]
  have hk : ((order (ks.foldl mapIncr [])).map Prod.fst).Nodup :=
    (hperm.map Prod.fst).nodup_iff.2 (foldl_mapIncr_nodup ks [] List.nodup_nil)
  exact hk

theorem breakdown_sum (order : List (Int × Int) → List (Int × Int)) (ks : List Int)
    (hperm : (order (ks.foldl mapIncr [])).Perm (ks.foldl mapIncr [])) :
    ((sortSlice (fun a b => decide (a.Position < b.Position))
      ((order (ks.foldl mapIncr [])).map
        (fun kv => ({ Position := kv.1, Count := kv.2 } : PositionCount)))).map
      (fun pc => pc.Count)).sum = (ks.length : Int) := by
  rw [((sortSlice_perm _ _).map _).sum_eq, List.map_map]
  have h := foldl_mapIncr_sum ks []
  simp only [List.map_nil, List.sum_nil, zero_add] at h
  rw [← h]
  exact (hperm.map Prod.snd).sum_eq

/-! ### Claims about `handlePlayerStats` -/

theorem countP_selectAllNewestFirst (P : Row → Bool) (db : Store) :
    (selectAllNewestFirst db).countP P = db.countP P :=
  (sortSlice_perm _ db).countP_eq P

/-- What the scan of `handlePlayerStats` counts, the name match being the
code's own `equalsCaseInsensitive`: each stored submission at most once.  In
every `200` response `totalSubmissions` is the number of stored submissions
holding at least one player whose name matches the queried name, and the
breakdown lists a position `p` with count `c` exactly when `c` is the (non-zero)
number of submissions whose first matching player, in stored order, has
position `p`; a later match within a submission adds nothing.  A `GET` request
with a non-empty name, when the query succeeds, gets such a response as soon as
one submission matches and `404` otherwise. -/
theorem handlePlayerStats_counts_once (fold : Nat → Nat) (env : Env) (db : Store)
    (r : Request) (hrange : ∀ m, (env.rangeOrder m).Perm m) :
    (∀ stats, (handlePlayerStats fold env db r).body = Body.stats stats →
      stats.TotalSubmissions = (db.countP (containsMatch fold r.QueryName) : Int) ∧
      ∀ p c, ({ Position := p, Count := c } : PositionCount) ∈ stats.PositionBreakdown ↔
        c = (db.countP (firstMatchAt fold r.QueryName p) : Int) ∧ 0 < c) ∧
    (r.Method = lit "GET" → r.QueryName ≠ [] → env.queryErr = false →
      if db.countP (containsMatch fold r.QueryName) = 0 then
        (handlePlayerStats fold env db r).status = 404
      else
        ∃ stats, handlePlayerStats fold env db r =
          { status := 200, contentType := some (lit "application/json"),
            body := Body.stats stats }) := by
  constructor
  · intro stats h
    obtain ⟨_, _, _, _, _, _, ht, hb⟩ := handlePlayerStats_stats fold env db r stats h
    refine ⟨ht, ?_⟩
    intro p c
    rw [hb, mem_breakdown env.rangeOrder _ (hrange _), count_firstMatchPositions,
      countP_selectAllNewestFirst]
    constructor
    · rintro ⟨hp, rfl⟩
      refine ⟨rfl, ?_⟩
      have h1 := List.count_pos_iff.2 hp
      rw [count_firstMatchPositions, countP_selectAllNewestFirst] at h1
      exact_mod_cast h1
    · rintro ⟨rfl, hpos⟩
      refine ⟨?_, rfl⟩
      apply List.count_pos_iff.1
      rw [count_firstMatchPositions, countP_selectAllNewestFirst]
      exact_mod_cast hpos
  · intro hm hq he
    rw [handlePlayerStats_scan fold env db r hm hq he]
    split
    · rfl
    · exact ⟨_, rfl⟩

/-- C6: the `positionBreakdown` of every `200` response of
`handlePlayerStats` is strictly ascending by position, so it is sorted and
lists each position once; and a `GET` request with a non-empty name that
matches in at least one stored submission gets such a response when the query
succeeds. -/
theorem handlePlayerStats_breakdown_ascending (fold : Nat → Nat) (env : Env) (db : Store)
    (r : Request) (hrange : ∀ m, (env.rangeOrder m).Perm m) :
    (∀ stats, (handlePlayerStats fold env db r).body = Body.stats stats →
      stats.PositionBreakdown.Pairwise (fun a b => a.Position < b.Position)) ∧
    (r.Method = lit "GET" → r.QueryName ≠ [] → env.queryErr = false →
      (∃ row ∈ db, containsMatch fold r.QueryName row = true) →
      ∃ stats, handlePlayerStats fold env db r =
          { status := 200, contentType := some (lit "application/json"),
            body := Body.stats stats } ∧
        stats.PositionBreakdown.Pairwise (fun a b => a.Position < b.Position)) := by
  have key : ∀ stats, (handlePlayerStats fold env db r).body = Body.stats stats →
      stats.PositionBreakdown.Pairwise (fun a b => a.Position < b.Position) := by
    intro stats h
    obtain ⟨_, _, _, _, _, _, _, hb⟩ := handlePlayerStats_stats fold env db r stats h
    rw [hb]
    exact breakdown_strict env.rangeOrder _ (hrange _)
  refine ⟨key, ?_⟩
  intro hm hq he ⟨row, hrow, hmatch⟩
  have hpos : db.countP (containsMatch fold r.QueryName) ≠ 0 :=
    Nat.pos_iff_ne_zero.1 (List.countP_pos_iff.2 ⟨row, hrow, hmatch⟩)
  have hs := handlePlayerStats_scan fold env db r hm hq he
  rw [if_neg hpos] at hs
  exact ⟨_, hs, key _ (by rw [hs])⟩

/-- C10: in every `200` response of `handlePlayerStats` each count of
`positionBreakdown` is at least 1, the counts add up to `totalSubmissions`, and
that total is at least 1.  A `404` is only given when no stored submission
contains a matching name; and for a `GET` request with a non-empty name whose
query succeeds the response is `404` exactly when no stored submission contains
a matching name. -/
theorem handlePlayerStats_counts_and_not_found (fold : Nat → Nat) (env : Env) (db : Store)
    (r : Request) (hrange : ∀ m, (env.rangeOrder m).Perm m) :
    (∀ stats, (handlePlayerStats fold env db r).body = Body.stats stats →
      (handlePlayerStats fold env db r).status = 200 ∧
      (∀ pc ∈ stats.PositionBreakdown, 1 ≤ pc.Count) ∧
      (stats.PositionBreakdown.map (fun pc => pc.Count)).sum = stats.TotalSubmissions ∧
      1 ≤ stats.TotalSubmissions) ∧
    ((handlePlayerStats fold env db r).status = 404 →
      ∀ row ∈ db, containsMatch fold r.QueryName row = false) ∧
    (r.Method = lit "GET" → r.QueryName ≠ [] → env.queryErr = false →
      ((handlePlayerStats fold env db r).status = 404 ↔
        ∀ row ∈ db, containsMatch fold r.QueryName row = false)) := by
  have hzero : db.countP (containsMatch fold r.QueryName) = 0 ↔
      ∀ row ∈ db, containsMatch fold r.QueryName row = false := by
    rw [List.countP_eq_zero]
    simp
  have hscan : r.Method = lit "GET" → r.QueryName ≠ [] → env.queryErr = false →
      ((handlePlayerStats fold env db r).status = 404 ↔
        ∀ row ∈ db, containsMatch fold r.QueryName row = false) := by
    intro hm hq he
    rw [handlePlayerStats_scan fold env db r hm hq he, ← hzero]
    split
    · rename_i hz
      simp [jsonError, hz]
    · rename_i hz
      simp [hz]
  refine ⟨?_, ?_, hscan⟩
  · intro stats h
    obtain ⟨_, _, _, hz, hresp, _, ht, hb⟩ := handlePlayerStats_stats fold env db r stats h
    refine ⟨by rw [hresp], ?_, ?_, ?_⟩
    · intro pc hpc
      obtain ⟨p, c⟩ := pc
      rw [hb, mem_breakdown env.rangeOrder _ (hrange _)] at hpc
      obtain ⟨hp, rfl⟩ := hpc
      have h1 := List.count_pos_iff.2 hp
      show (1 : Int) ≤ ((List.count p _ : Nat) : Int)
      exact_mod_cast h1
    · rw [hb, breakdown_sum env.rangeOrder _ (hrange _), ht, length_firstMatchPositions,
        countP_selectAllNewestFirst]
    · rw [ht]
      exact_mod_cast Nat.pos_of_ne_zero hz
  · intro h404
    by_cases hm : r.Method = lit "GET"
    · by_cases hq : r.QueryName = []
      · simp [handlePlayerStats, hm, hq, jsonError] at h404
      · cases he : env.queryErr with
        | true => simp [handlePlayerStats, hm, hq, he, httpError] at h404
        | false => exact (hscan hm hq he).1 h404
    · simp [handlePlayerStats, hm, httpError] at h404

theorem handlePlayerStats_counts_once_witness :
    (∀ m : List (Int × Int), (sampleEnv.rangeOrder m).Perm m) ∧
    handlePlayerStats SimpleFoldLatin sampleEnv repeatStore (statsRequest (lit "alice")) =
      { status := 200, contentType := some (lit "application/json"),
        body := Body.stats
          { PlayerName := lit "alice", TotalSubmissions := 2,
            PositionBreakdown := [{ Position := 2, Count := 1 }, { Position := 5, Count := 1 }] } } ∧
    ((2 : Int) = (repeatStore.countP (containsMatch SimpleFoldLatin (lit "alice")) : Int) ∧
      ∀ p c, ({ Position := p, Count := c } : PositionCount) ∈
          [({ Position := 2, Count := 1 } : PositionCount), { Position := 5, Count := 1 }] ↔
        c = (repeatStore.countP (firstMatchAt SimpleFoldLatin (lit "alice") p) : Int) ∧ 0 < c) :=
  ⟨fun m => List.reverse_perm m, by decide,
    (handlePlayerStats_counts_once SimpleFoldLatin sampleEnv repeatStore
      (statsRequest (lit "alice")) (fun m => List.reverse_perm m)).1
      { PlayerName := lit "alice", TotalSubmissions := 2,
        PositionBreakdown := [{ Position := 2, Count := 1 }, { Position := 5, Count := 1 }] }
      (by decide)⟩

theorem handlePlayerStats_breakdown_ascending_witness :
    (∀ m : List (Int × Int), (sampleEnv.rangeOrder m).Perm m) ∧
    handlePlayerStats SimpleFoldLatin sampleEnv aliceStore (statsRequest (lit "Alice")) =
      { status := 200, contentType := some (lit "application/json"),
        body := Body.stats
          { PlayerName := lit "Alice", TotalSubmissions := 2,
            PositionBreakdown := [{ Position := 3, Count := 1 }, { Position := 7, Count := 1 }] } } ∧
    List.Pairwise (fun a b : PositionCount => a.Position < b.Position)
      [{ Position := 3, Count := 1 }, { Position := 7, Count := 1 }] :=
  ⟨fun m => List.reverse_perm m, by decide,
    (handlePlayerStats_breakdown_ascending SimpleFoldLatin sampleEnv aliceStore
      (statsRequest (lit "Alice")) (fun m => List.reverse_perm m)).1
      { PlayerName := lit "Alice", TotalSubmissions := 2,
        PositionBreakdown := [{ Position := 3, Count := 1 }, { Position := 7, Count := 1 }] }
      (by decide)⟩

theorem handlePlayerStats_counts_and_not_found_witness :
    (∀ m : List (Int × Int), (sampleEnv.rangeOrder m).Perm m) ∧
    ((handlePlayerStats SimpleFoldLatin sampleEnv repeatStore (statsRequest (lit "alice"))).status
        = 200 ∧
      (∀ pc ∈ [({ Position := 2, Count := 1 } : PositionCount), { Position := 5, Count := 1 }],
        1 ≤ pc.Count) ∧
      ([({ Position := 2, Count := 1 } : PositionCount), { Position := 5, Count := 1 }].map
        (fun pc => pc.Count)).sum = 2 ∧
      (1 : Int) ≤ 2) ∧
    ((handlePlayerStats SimpleFoldLatin sampleEnv repeatStore (statsRequest (lit "zoe"))).status
        = 404 ↔
      ∀ row ∈ repeatStore, containsMatch SimpleFoldLatin (lit "zoe") row = false) :=
  ⟨fun m => List.reverse_perm m,
    (handlePlayerStats_counts_and_not_found SimpleFoldLatin sampleEnv repeatStore
      (statsRequest (lit "alice")) (fun m => List.reverse_perm m)).1
      { PlayerName := lit "alice", TotalSubmissions := 2,
        PositionBreakdown := [{ Position := 2, Count := 1 }, { Position := 5, Count := 1 }] }
      (by decide),
    (handlePlayerStats_counts_and_not_found SimpleFoldLatin sampleEnv repeatStore
      (statsRequest (lit "zoe")) (fun m => List.reverse_perm m)).2.2
      (by decide) (by decide) (by decide)⟩

/-- C1, the failing input: one stored submission whose first player is named
with the Kelvin sign `U+212A`, queried with the name `k`.  The stored name
equals the query ignoring letter case (`strings.EqualFold` holds), so one
submission contains a matching player, at position 1; the scan compares through
`equalsCaseInsensitive`, counts nothing and the handler answers `404`. -/
theorem handlePlayerStats_kelvin_not_counted :
    EqualFold SimpleFoldLatin kelvinName (lit "k") = true ∧
    kelvinStore.countP (fun row =>
      match row.players with
      | none => false
      | some players => players.any (fun p => EqualFold SimpleFoldLatin p.Name (lit "k"))) = 1 ∧
    kelvinStore.countP (containsMatch SimpleFoldLatin (lit "k")) = 0 ∧
    handlePlayerStats SimpleFoldLatin sampleEnv kelvinStore (statsRequest (lit "k")) =
      jsonError 404 (lit "Player not found")
        (lit "Player 'k' was not found in any submission") := by
  decide

/-! ### `equalsCaseInsensitive` -/

/-- On strings of ASCII bytes `strings.EqualFold` only equates strings of the
same length. -/
theorem EqualFold_ascii_length (fold : Nat → Nat) (a b : GoString)
    (ha : ∀ c ∈ a, c < 128) (hb : ∀ c ∈ b, c < 128) (h : EqualFold fold a b = true) :
    a.length = b.length := by
  induction a generalizing b with
  | nil =>
    cases b with
    | nil => rfl
    | cons tr t => simp [EqualFold] at h
  | cons sr s ih =>
    cases b with
    | nil => simp [EqualFold] at h
    | cons tr t =>
      have hsr : sr < 2 ^ 7 := ha sr (List.mem_cons_self _ _)
      have htr : tr < 2 ^ 7 := hb tr (List.mem_cons_self _ _)
      have hor : ¬ (sr ||| tr ≥ RuneSelf) := by
        have := Nat.or_lt_two_pow hsr htr
        simp only [RuneSelf, ge_iff_le, not_le]
        exact this
      have ha' : ∀ c ∈ s, c < 128 := fun c hc => ha c (List.mem_cons_of_mem _ hc)
      have hb' : ∀ c ∈ t, c < 128 := fun c hc => hb c (List.mem_cons_of_mem _ hc)
      unfold EqualFold at h
      rw [if_neg hor] at h
      simp only [List.length_cons, add_left_inj]
      by_cases he : tr = sr
      · rw [if_pos he] at h
        exact ih t ha' hb' h
      · rw [if_neg he] at h
        by_cases hp : asciiFoldPair (if tr < sr then tr else sr) (if tr < sr then sr else tr) = true
        · simp only [hp, if_true] at h
          exact ih t ha' hb' h
        · simp only [hp] at h
          exact absurd h (by simp)

/-- What `equalsCaseInsensitive` computes: it is true exactly when `a` and `b`
have the same length in bytes and `strings.EqualFold(a, b)` holds; for strings
of ASCII bytes that is exactly when `strings.EqualFold(a, b)` holds. -/
theorem equalsCaseInsensitive_iff (fold : Nat → Nat) (a b : GoString) :
    (equalsCaseInsensitive fold a b = true ↔
      a.length = b.length ∧ EqualFold fold a b = true) ∧
    ((∀ c ∈ a, c < 128) → (∀ c ∈ b, c < 128) →
      (equalsCaseInsensitive fold a b = true ↔ EqualFold fold a b = true)) := by
  have h1 : equalsCaseInsensitive fold a b = true ↔
      a.length = b.length ∧ EqualFold fold a b = true := by
    simp [equalsCaseInsensitive]
  refine ⟨h1, ?_⟩
  intro ha hb
  rw [h1]
  exact ⟨fun h => h.2, fun h => ⟨EqualFold_ascii_length fold a b ha hb h, h⟩⟩

/-- C7, the failing input: `"k"` against the Kelvin sign `U+212A` (bytes
`E2 84 AA`).  The two are equal under Unicode case folding, `strings.EqualFold`
holds, but their lengths in bytes are 1 and 3 and `equalsCaseInsensitive` is
false. -/
theorem equalsCaseInsensitive_counterexample :
    EqualFold SimpleFoldLatin (lit "k") [0xE2, 0x84, 0xAA] = true ∧
    equalsCaseInsensitive SimpleFoldLatin (lit "k") [0xE2, 0x84, 0xAA] = false ∧
    ¬ (equalsCaseInsensitive SimpleFoldLatin (lit "k") [0xE2, 0x84, 0xAA] = true ↔
      EqualFold SimpleFoldLatin (lit "k") [0xE2, 0x84, 0xAA] = true) := by
  decide

/-! ### Claims about `handleSubmit` -/

theorem selectIDByIP_found (env : Env) (db : Store) (ip : GoString)
    (hsel : env.selectErr = false) (hdup : ∃ row ∈ db, row.ip_address = ip) :
    ∃ id, selectIDByIP env db ip = QueryRowResult.found id := by
  obtain ⟨row, hrow, hip⟩ := hdup
  unfold selectIDByIP
  rw [hsel]
  cases hf : db.find? (fun row => decide (row.ip_address = ip)) with
  | none =>
    rw [List.find?_eq_none] at hf
    exact absurd (by simpa using hip) (hf row hrow)
  | some found => exact ⟨found.id, by simp⟩

/-- When the lookup reports `sql.ErrNoRows`, no stored row has the address: in
requests handled one after another the `UNIQUE` constraint never rejects the
insert that follows the check of `handleSubmit`. -/
theorem selectIDByIP_noRows (env : Env) (db : Store) (ip : GoString)
    (h : selectIDByIP env db ip = QueryRowResult.noRows) :
    db.any (fun row => decide (row.ip_address = ip)) = false := by
  unfold selectIDByIP at h
  split at h
  · exact absurd h (by simp)
  · cases hf : db.find? (fun row => decide (row.ip_address = ip)) with
    | some row => simp [hf] at h
    | none =>
      rw [List.find?_eq_none] at hf
      rw [Bool.eq_false_iff]
      intro hany
      obtain ⟨row, hrow, hip⟩ := List.any_eq_true.1 hany
      exact hf row hrow hip

/-- C2: when the table already holds a submission with the address a submit
request resolves to (through `X-Forwarded-For`, `X-Real-IP` or `RemoteAddr`),
and the body decodes with exactly 20 players and a non-empty `submittedBy`,
`handleSubmit` answers `409` and leaves the table as it was (the lookup itself
not failing). -/
theorem handleSubmit_duplicate_address (env : Env) (db : Store) (r : Request)
    (sub : SubmissionRequest) (hbody : r.Body = some sub) (h20 : sub.Players.length = 20)
    (hby : sub.SubmittedBy ≠ []) (hdup : ∃ row ∈ db, row.ip_address = getIPAddress r)
    (hsel : env.selectErr = false) :
    handleSubmit env db r =
      (jsonError 409 (lit "IP address already submitted")
        (lit "Only one submission per IP address is allowed"), db) := by
  obtain ⟨id, hid⟩ := selectIDByIP_found env db (getIPAddress r) hsel hdup
  unfold handleSubmit
  simp [hbody, h20, hby, hid]

theorem handleSubmit_duplicate_address_witness :
    (handleSubmit sampleEnv aliceStore
        (submitRequest (lit "10.0.0.1, 172.16.0.7") (lit "10.9.9.9") (lit "10.0.0.9:4000")
          (some { Players := samplePlayers [], SubmittedBy := lit "eve" })) =
      (jsonError 409 (lit "IP address already submitted")
        (lit "Only one submission per IP address is allowed"), aliceStore)) ∧
    (handleSubmit sampleEnv aliceStore
        (submitRequest [] (lit "10.0.0.1") (lit "10.0.0.9:4000")
          (some { Players := samplePlayers [], SubmittedBy := lit "eve" })) =
      (jsonError 409 (lit "IP address already submitted")
        (lit "Only one submission per IP address is allowed"), aliceStore)) ∧
    (handleSubmit sampleEnv aliceStore
        (submitRequest [] [] (lit "10.0.0.1:4000")
          (some { Players := samplePlayers [], SubmittedBy := lit "eve" })) =
      (jsonError 409 (lit "IP address already submitted")
        (lit "Only one submission per IP address is allowed"), aliceStore)) :=
  ⟨handleSubmit_duplicate_address sampleEnv aliceStore _ _ rfl (by decide) (by decide)
      ⟨annRow, List.mem_cons_self _ _, by decide⟩ rfl,
    handleSubmit_duplicate_address sampleEnv aliceStore _ _ rfl (by decide) (by decide)
      ⟨annRow, List.mem_cons_self _ _, by decide⟩ rfl,
    handleSubmit_duplicate_address sampleEnv aliceStore _ _ rfl (by decide) (by decide)
      ⟨annRow, List.mem_cons_self _ _, by decide⟩ rfl⟩

/-- One `handleSubmit` either leaves the table as it was or appends one row
whose address no stored row has. -/
theorem handleSubmit_store (env : Env) (db : Store) (r : Request) :
    (handleSubmit env db r).2 = db ∨
      ∃ row, (handleSubmit env db r).2 = db ++ [row] ∧
        (handleSubmit env db r).1.status = 201 ∧
        row.ip_address = getIPAddress r ∧ row.ip_address ∉ db.map (fun x => x.ip_address) := by
  unfold handleSubmit
  cases hb : r.Body with
  | none => exact Or.inl rfl
  | some sub =>
    simp only
    split
    · exact Or.inl rfl
    · split
      · exact Or.inl rfl
      · cases hs : selectIDByIP env db (getIPAddress r) with
        | found id => exact Or.inl rfl
        | failed => exact Or.inl rfl
        | noRows =>
          simp only
          cases hi : insertSubmission env db sub.Players sub.SubmittedBy (getIPAddress r) with
          | none => exact Or.inl rfl
          | some db' =>
            right
            unfold insertSubmission at hi
            split at hi
            · exact absurd hi (by simp)
            · split at hi
              · exact absurd hi (by simp)
              · rename_i hany
                simp only [Option.some.injEq] at hi
                refine ⟨_, hi.symm, rfl, rfl, ?_⟩
                simp only [List.any_eq_true, decide_eq_true_eq, not_exists, not_and] at hany
                simp only [List.mem_map, not_exists, not_and]
                intro x hx e
                exact hany x hx e

theorem handleSubmitAll_append (pre post : List (Env × Request)) (db : Store) :
    handleSubmitAll (pre ++ post) db = handleSubmitAll post (handleSubmitAll pre db) := by
  induction pre generalizing db with
  | nil => rfl
  | cons x pre ih =>
    obtain ⟨env, r⟩ := x
    show handleSubmitAll (pre ++ post) (handleSubmit env db r).2 = _
    exact ih _

theorem handleSubmitAll_extends (reqs : List (Env × Request)) (db : Store) :
    db <+: handleSubmitAll reqs db := by
  induction reqs generalizing db with
  | nil => exact List.prefix_refl db
  | cons x reqs ih =>
    obtain ⟨env, r⟩ := x
    unfold handleSubmitAll
    refine List.IsPrefix.trans ?_ (ih _)
    rcases handleSubmit_store env db r with h | ⟨row, h, _⟩
    · rw [h]
    · rw [h]
      exact List.prefix_append db [row]

theorem handleSubmitAll_nodup (reqs : List (Env × Request)) (db : Store)
    (h : (db.map (fun x => x.ip_address)).Nodup) :
    ((handleSubmitAll reqs db).map (fun x => x.ip_address)).Nodup := by
  induction reqs generalizing db with
  | nil => exact h
  | cons x reqs ih =>
    obtain ⟨env, r⟩ := x
    unfold handleSubmitAll
    apply ih
    rcases handleSubmit_store env db r with h1 | ⟨row, h1, _, _, hnew⟩
    · rw [h1]
      exact h
    · rw [h1, List.map_append]
      refine List.Nodup.append h (List.nodup_singleton _) ?_
      simpa using hnew

theorem countP_address_le_one (db : Store) (h : (db.map (fun x => x.ip_address)).Nodup)
    (a : GoString) : db.countP (fun row => decide (row.ip_address = a)) ≤ 1 := by
  induction db with
  | nil => simp
  | cons row db ih =>
    rw [List.map_cons, List.nodup_cons] at h
    rw [List.countP_cons]
    by_cases e : row.ip_address = a
    · have hz : db.countP (fun row => decide (row.ip_address = a)) = 0 := by
        rw [List.countP_eq_zero]
        intro x hx
        simp only [decide_eq_true_eq]
        intro hxa
        exact h.1 (List.mem_map.2 ⟨x, hx, hxa.trans e.symm⟩)
      simp [hz, e]
    · simp only [e, decide_False, Bool.false_eq_true, if_false, add_zero]
      exact ih h.2

/-- C3: from an empty table, after any finite sequence of submit requests
handled one after another, the table holds at most one submission for every
address string, and whatever requests follow, the rows already stored stay as
they are, in place, at the head of the table. -/
theorem handleSubmitAll_one_per_address (pre post : List (Env × Request)) :
    (∀ a : GoString,
      (handleSubmitAll pre []).countP (fun row => decide (row.ip_address = a)) ≤ 1) ∧
    handleSubmitAll pre [] <+: handleSubmitAll (pre ++ post) [] := by
  constructor
  · intro a
    exact countP_address_le_one _ (handleSubmitAll_nodup pre [] List.nodup_nil) a
  · rw [handleSubmitAll_append]
    exact handleSubmitAll_extends post _

/-- C4: `handleSubmit` is decided by the first failing check, in the order
body, player count, `submittedBy`, address.  A body that does not decode gives
`400`; a decoded body with `n ≠ 20` players gives `400` with the message
`Exactly 20 players are required, got n`, whatever `submittedBy` and the table
hold; 20 players with an empty `submittedBy` give `400` with
`submittedBy is required`, whatever the table holds; and every response other
than `201` leaves the table as it was. -/
theorem handleSubmit_validation_order (env : Env) (db : Store) (r : Request) :
    (r.Body = none → (handleSubmit env db r).1.status = 400 ∧ (handleSubmit env db r).2 = db) ∧
    (∀ sub, r.Body = some sub → sub.Players.length ≠ 20 →
      handleSubmit env db r =
        (jsonError 400 (lit "Invalid number of players")
          (lit "Exactly 20 players are required, got " ++
            lit (toString sub.Players.length)), db)) ∧
    (∀ sub, r.Body = some sub → sub.Players.length = 20 → sub.SubmittedBy = [] →
      handleSubmit env db r =
        (jsonError 400 (lit "Missing required field") (lit "submittedBy is required"), db)) ∧
    ((handleSubmit env db r).1.status ≠ 201 → (handleSubmit env db r).2 = db) := by
  refine ⟨?_, ?_, ?_, ?_⟩
  · intro hb
    simp [handleSubmit, hb, httpError]
  · intro sub hb hn
    simp [handleSubmit, hb, hn]
  · intro sub hb hn hs
    simp [handleSubmit, hb, hn, hs]
  · intro hne
    rcases handleSubmit_store env db r with h | ⟨row, _, h201, _⟩
    · exact h
    · exact absurd h201 hne

theorem handleSubmit_validation_order_witness :
    handleSubmit sampleEnv aliceStore
        (submitRequest [] (lit "10.0.0.1") (lit "10.0.0.9:4000")
          (some { Players := (samplePlayers []).take 19, SubmittedBy := [] })) =
      (jsonError 400 (lit "Invalid number of players")
        (lit "Exactly 20 players are required, got 19"), aliceStore) ∧
    handleSubmit sampleEnv aliceStore
        (submitRequest [] (lit "10.0.0.1") (lit "10.0.0.9:4000")
          (some { Players := samplePlayers [], SubmittedBy := [] })) =
      (jsonError 400 (lit "Missing required field") (lit "submittedBy is required"),
        aliceStore) :=
  ⟨((handleSubmit_validation_order sampleEnv aliceStore _).2.1
      { Players := (samplePlayers []).take 19, SubmittedBy := [] } rfl (by decide)).trans
      (by decide),
    (handleSubmit_validation_order sampleEnv aliceStore _).2.2.1
      { Players := samplePlayers [], SubmittedBy := [] } rfl (by decide) rfl⟩

/-- C8, the failing input: a body that is not well-formed JSON is answered
`400` through `http.Error`, with the plain text `Invalid JSON` and content type
`text/plain`, not with a JSON object of fields `error` and `message`; the
table is left as it was. -/
theorem handleSubmit_invalid_json_plain_text :
    handleSubmit sampleEnv aliceStore
        (submitRequest [] [] (lit "10.0.0.9:4000") none) =
      ({ status := 400, contentType := some (lit "text/plain; charset=utf-8"),
         body := Body.text (lit "Invalid JSON\n") }, aliceStore) ∧
    ∀ e, (handleSubmit sampleEnv aliceStore
        (submitRequest [] [] (lit "10.0.0.9:4000") none)).1.body ≠ Body.error e := by
  refine ⟨by decide, ?_⟩
  intro e
  simp [handleSubmit, submitRequest, httpError]

/-! ### `waitForDB` -/

theorem wrapInt64_ten_seconds : wrapInt64 (10 * Second) = 10 * Second := by decide

/-- One turn of the loop takes the wait of retry `k` to the wait of retry `k + 1`. -/
theorem specWait_step (k : Nat) :
    (if wrapInt64 (specWait k * 2) > wrapInt64 (10 * Second) then wrapInt64 (10 * Second)
      else wrapInt64 (specWait k * 2)) = specWait (k + 1) := by
  rw [wrapInt64_ten_seconds]
  by_cases hk : k < 4
  · interval_cases k <;> decide
  · have h16 : (2 : Int) ^ 4 ≤ 2 ^ k := pow_le_pow_right₀ (by norm_num) (not_lt.1 hk)
    have h16' : (2 : Int) ^ 4 ≤ 2 ^ (k + 1) :=
      pow_le_pow_right₀ (by norm_num) (by omega)
    have e1 : specWait k = 10 * Second := by
      unfold specWait
      rw [min_eq_right (by linarith)]
    have e2 : specWait (k + 1) = 10 * Second := by
      unfold specWait
      rw [min_eq_right (by linarith)]
    rw [e1, e2]
    decide

theorem waitLoop_waits (probes : List Probe) (k : Nat) (waits : List Int) :
    (waitLoop (wrapInt64 (10 * Second)) probes (specWait k) waits).2 =
      waits ++ (List.range' k (probes.takeWhile (fun p => decide (p = Probe.downTimer))).length).map
        specWait := by
  induction probes generalizing k waits with
  | nil => simp [waitLoop]
  | cons p probes ih =>
    cases p with
    | up => simp [waitLoop]
    | downDeadline => simp [waitLoop]
    | downTimer =>
      unfold waitLoop
      simp only [specWait_step, ih]
      simp [List.range'_succ]

theorem specWait_mono {i j : Nat} (h : i ≤ j) : specWait i ≤ specWait j := by
  unfold specWait
  have h2 : (2 : Int) ^ i ≤ 2 ^ j := pow_le_pow_right₀ (by norm_num) h
  have hs : (0 : Int) ≤ Second := by decide
  exact mul_le_mul_of_nonneg_right (min_le_min_right _ h2) hs

/-- C9: the waits of `waitForDB` before its retries are `min(2^k, 10)` seconds
for `k = 0, 1, 2, ...`, one for every failed probe that the timer follows: the
sequence 1, 2, 4, 8, 10, 10, ... seconds, which starts at one second, never
decreases and stays within the cap of ten seconds. -/
theorem waitForDB_waits (probes : List Probe) :
    (waitForDB probes).2 =
      (List.range (probes.takeWhile (fun p => decide (p = Probe.downTimer))).length).map
        (fun k => min (2 ^ k) 10 * Second) ∧
    (waitForDB probes).2.Pairwise (fun a b => a ≤ b) ∧
    ∀ w ∈ (waitForDB probes).2, Second ≤ w ∧ w ≤ 10 * Second := by
  have h0 : specWait 0 = Second := by decide
  have hw : (waitForDB probes).2 =
      (List.range (probes.takeWhile (fun p => decide (p = Probe.downTimer))).length).map
        specWait := by
    have h := waitLoop_waits probes 0 []
    rw [h0, List.nil_append, ← List.range_eq_range'] at h
    exact h
  refine ⟨hw, ?_, ?_⟩
  · rw [hw, List.pairwise_map]
    exact (List.pairwise_lt_range _).imp (fun h => specWait_mono (le_of_lt h))
  · intro w hmem
    rw [hw, List.mem_map] at hmem
    obtain ⟨k, _, rfl⟩ := hmem
    constructor
    · rw [← h0]
      exact specWait_mono (Nat.zero_le k)
    · unfold specWait
      have hs : (0 : Int) ≤ Second := by decide
      exact mul_le_mul_of_nonneg_right (min_le_right _ _) hs

end Top20
